import Mathlib

/-!
# GhostStake: a shallow embedding of `contracts/GhostStake.sol`

The contract keeps, per player address, three confidential `euint32` slots
(`goldBalances`, `stakedBalances`, `lastActionStatus`), a public
`hasClaimed` flag and three existence flags (`hasGoldBalance`,
`hasStakedBalance`, `hasStatusRecord`).  Three mutating entry points
(`claimInitialGold`, `stakeGold`, `withdrawStakedGold`) update them with
branch-free confidential arithmetic, and every confidential write goes
through the `_storeEncryptedValue` helper which also sets the existence
flag and grants decryption capability to the contract and to the player.

Modelling choices:
* an `euint32` ciphertext handle is modelled by its 32-bit plaintext, as a
  `Nat` reduced modulo `2 ^ 32`; the never-written mapping default (the
  all-zero handle, which is not a valid ciphertext) is modelled as `none`,
  a stored ciphertext decrypting to `v` as `some v`;
* FHE primitives `FHE.add`, `FHE.sub`, `FHE.ge`, `FHE.select` become
  `fheAdd`, `fheSub`, `fheGe`, `fheSelect` on plaintexts, with explicit
  wrap-around modulo `2 ^ 32`;
* `FHE.fromExternal` is modelled by a boolean `proofOk` parameter: a
  failing proof reverts (`Except.error GErr.invalidProof`), a passing one
  yields the 32-bit plaintext of the supplied external ciphertext;
* the ACL effects `FHE.allowThis` / `FHE.allow(value, player)` are
  recorded as two booleans per slot, saying whether the contract
  respectively the player may decrypt the ciphertext currently stored
  there;
* a Solidity revert returns `Except.error`; `exec` wraps a revert back to
  the unchanged pre-state with no emitted events, matching EVM semantics.
-/

/-- Player identities (Solidity `address`). -/
abbrev Addr := Nat

/-- The `euint32` modulus. -/
def M32 : Nat := 2 ^ 32

/-- `FHE.add` on `euint32`: wrapping 32-bit addition of the plaintexts. -/
def fheAdd (x y : Nat) : Nat := (x + y) % M32

/-- `FHE.sub` on `euint32`: wrapping 32-bit subtraction of the plaintexts. -/
def fheSub (x y : Nat) : Nat := (x % M32 + M32 - y % M32) % M32

/-- `FHE.ge` on `euint32`: comparison of the plaintexts. -/
def fheGe (x y : Nat) : Bool := decide (y ≤ x)

/-- `FHE.select cond a b`: `a` if `cond` holds, else `b`. -/
def fheSelect (cond : Bool) (a b : Nat) : Nat := if cond then a else b

/-- Decryption of a stored handle; the all-zero handle (`none`) behaves as
zero (it is what the front end displays as 0 and what the unreachable
fallback of the ternary resolution would produce). -/
def decryptOr0 : Option Nat → Nat
  | none => 0
  | some v => v

/-- The getter value returned for a slot whose existence flag was never
set: the Solidity mapping default, an all-zero `euint32` handle. -/
def absentSentinel : Option Nat := none

def INITIAL_GRANT : Nat := 100
def STATUS_OK : Nat := 0
def STATUS_INSUFFICIENT_BALANCE : Nat := 1
def STATUS_INSUFFICIENT_STAKE : Nat := 2

/-- Pointwise update of a per-address mapping. -/
def upd {α : Type} (f : Addr → α) (p : Addr) (v : α) : Addr → α :=
  fun q => if q = p then v else f q

/-- One confidential storage bucket together with its existence-flag
mapping and the decryption-capability bookkeeping produced by
`FHE.allowThis` / `FHE.allow`. -/
structure CipherSlot where
  vals : Addr → Option Nat
  flags : Addr → Bool
  allowLedger : Addr → Bool
  allowPlayer : Addr → Bool

/-- `_storeEncryptedValue(storageBucket, flags, player, value)`: writes
the ciphertext, sets the existence flag, and grants decryption capability
to the contract (`FHE.allowThis`) and to the player (`FHE.allow`). -/
def storeEncryptedValue (b : CipherSlot) (p : Addr) (v : Nat) : CipherSlot :=
  { vals := upd b.vals p (some v)
    flags := upd b.flags p true
    allowLedger := upd b.allowLedger p true
    allowPlayer := upd b.allowPlayer p true }

/-- `hasFlag[player] ? bucket[player] : FHE.asEuint32(0)`: the current
plaintext of a slot, synthesizing a confidential zero when the existence
flag is unset. -/
def resolveSlot (b : CipherSlot) (p : Addr) : Nat :=
  if b.flags p then decryptOr0 (b.vals p) else 0

/-- The full contract storage. -/
structure GhostState where
  goldBalances : CipherSlot
  stakedBalances : CipherSlot
  lastActionStatus : CipherSlot
  hasClaimed : Addr → Bool

/-- The storage of a freshly deployed contract: every mapping at its
Solidity default. -/
def initState : GhostState :=
  { goldBalances := ⟨fun _ => none, fun _ => false, fun _ => false, fun _ => false⟩
    stakedBalances := ⟨fun _ => none, fun _ => false, fun _ => false, fun _ => false⟩
    lastActionStatus := ⟨fun _ => none, fun _ => false, fun _ => false, fun _ => false⟩
    hasClaimed := fun _ => false }

/-- Events emitted by the contract. -/
inductive Event where
  | goldClaimed (p : Addr)
  | goldStaked (p : Addr)
  | goldWithdrawn (p : Addr)
deriving DecidableEq, Repr

/-- Revert reasons: the `require` in `claimInitialGold` and a failing
input proof in `FHE.fromExternal`. -/
inductive GErr where
  | alreadyClaimed
  | invalidProof
deriving DecidableEq, Repr

/-- `claimInitialGold()`: requires the caller has not claimed, adds the
fixed grant of 100 to the resolved balance, stores balance and an OK
status, marks the caller claimed and emits `GoldClaimed`. -/
def claimInitialGold (p : Addr) (s : GhostState) :
    Except GErr (GhostState × List Event) :=
  if s.hasClaimed p then .error .alreadyClaimed
  else
    let grant := INITIAL_GRANT
    let currentBalance := resolveSlot s.goldBalances p
    let updatedBalance := fheAdd currentBalance grant
    let s1 := { s with goldBalances := storeEncryptedValue s.goldBalances p updatedBalance }
    let s2 := { s1 with lastActionStatus := storeEncryptedValue s1.lastActionStatus p STATUS_OK }
    let s3 := { s2 with hasClaimed := upd s2.hasClaimed p true }
    .ok (s3, [Event.goldClaimed p])

/-- `stakeGold(encryptedAmountHandle, inputProof)`: after proof
verification, computes both candidate outcomes, compares
`currentBalance ≥ amount` confidentially, commits exactly one outcome per
slot via `FHE.select`, and emits `GoldStaked` unconditionally. -/
def stakeGold (p : Addr) (amount : Nat) (proofOk : Bool) (s : GhostState) :
    Except GErr (GhostState × List Event) :=
  if proofOk then
    let a := amount % M32
    let currentBalance := resolveSlot s.goldBalances p
    let currentStake := resolveSlot s.stakedBalances p
    let updatedBalance := fheSub currentBalance a
    let updatedStake := fheAdd currentStake a
    let hasSufficientBalance := fheGe currentBalance a
    let safeBalance := fheSelect hasSufficientBalance updatedBalance currentBalance
    let safeStake := fheSelect hasSufficientBalance updatedStake currentStake
    let status := fheSelect hasSufficientBalance STATUS_OK STATUS_INSUFFICIENT_BALANCE
    let s1 := { s with goldBalances := storeEncryptedValue s.goldBalances p safeBalance }
    let s2 := { s1 with stakedBalances := storeEncryptedValue s1.stakedBalances p safeStake }
    let s3 := { s2 with lastActionStatus := storeEncryptedValue s2.lastActionStatus p status }
    .ok (s3, [Event.goldStaked p])
  else .error .invalidProof

/-- `withdrawStakedGold(encryptedAmountHandle, inputProof)`: symmetric to
`stakeGold` with the comparison `currentStake ≥ amount`, moving the amount
from stake back to balance, and emitting `GoldWithdrawn`
unconditionally. -/
def withdrawStakedGold (p : Addr) (amount : Nat) (proofOk : Bool) (s : GhostState) :
    Except GErr (GhostState × List Event) :=
  if proofOk then
    let a := amount % M32
    let currentStake := resolveSlot s.stakedBalances p
    let currentBalance := resolveSlot s.goldBalances p
    let updatedStake := fheSub currentStake a
    let updatedBalance := fheAdd currentBalance a
    let hasStakeAvailable := fheGe currentStake a
    let safeStake := fheSelect hasStakeAvailable updatedStake currentStake
    let safeBalance := fheSelect hasStakeAvailable updatedBalance currentBalance
    let status := fheSelect hasStakeAvailable STATUS_OK STATUS_INSUFFICIENT_STAKE
    let s1 := { s with stakedBalances := storeEncryptedValue s.stakedBalances p safeStake }
    let s2 := { s1 with goldBalances := storeEncryptedValue s1.goldBalances p safeBalance }
    let s3 := { s2 with lastActionStatus := storeEncryptedValue s2.lastActionStatus p status }
    .ok (s3, [Event.goldWithdrawn p])
  else .error .invalidProof

/-- View `getGoldBalance(player)`: the raw stored handle. -/
def getGoldBalance (s : GhostState) (p : Addr) : Option Nat := s.goldBalances.vals p

/-- View `getStakedBalance(player)`: the raw stored handle. -/
def getStakedBalance (s : GhostState) (p : Addr) : Option Nat := s.stakedBalances.vals p

/-- View `getLastActionStatus(player)`: the raw stored handle. -/
def getLastActionStatus (s : GhostState) (p : Addr) : Option Nat := s.lastActionStatus.vals p

/-- View `hasClaimedInitialGold(player)`. -/
def hasClaimedInitialGold (s : GhostState) (p : Addr) : Bool := s.hasClaimed p

/-- An external call to the contract, by some caller. -/
inductive Op where
  | claim
  | stake (amount : Nat) (proofOk : Bool)
  | withdraw (amount : Nat) (proofOk : Bool)
deriving DecidableEq, Repr

/-- Dispatch one external call. -/
def step (p : Addr) (o : Op) (s : GhostState) : Except GErr (GhostState × List Event) :=
  match o with
  | .claim => claimInitialGold p s
  | .stake a ok => stakeGold p a ok s
  | .withdraw a ok => withdrawStakedGold p a ok s

/-- Transaction-level semantics: a revert rolls the storage back and
emits nothing. -/
def exec (p : Addr) (o : Op) (s : GhostState) : GhostState × List Event :=
  match step p o s with
  | .ok r => r
  | .error _ => (s, [])

/-- Run a sequence of calls, all by the same caller, keeping only the
storage. -/
def runSeq (p : Addr) (ops : List Op) (s : GhostState) : GhostState :=
  ops.foldl (fun t o => (exec p o t).1) s

/-- States reachable from a fresh deployment by any sequence of calls by
any callers. -/
inductive Reachable : GhostState → Prop where
  | init : Reachable initState
  | next (p : Addr) (o : Op) {s : GhostState} : Reachable s → Reachable (exec p o s).1

/-- The decrypted `balance + stake` of a player, absent slots reading as
zero. -/
def sumOf (s : GhostState) (p : Addr) : Nat :=
  resolveSlot s.goldBalances p + resolveSlot s.stakedBalances p

/-! ## Post-state characterizations of the three operations -/

/-- The storage after a successful `claimInitialGold` by `p`. -/
def claimPost (p : Addr) (s : GhostState) : GhostState :=
  { goldBalances :=
      storeEncryptedValue s.goldBalances p
        (fheAdd (resolveSlot s.goldBalances p) INITIAL_GRANT)
    stakedBalances := s.stakedBalances
    lastActionStatus := storeEncryptedValue s.lastActionStatus p STATUS_OK
    hasClaimed := upd s.hasClaimed p true }

/-- The storage after a `stakeGold` by `p` whose proof verifies. -/
def stakePost (p : Addr) (amount : Nat) (s : GhostState) : GhostState :=
  let a := amount % M32
  let b := resolveSlot s.goldBalances p
  let t := resolveSlot s.stakedBalances p
  let c := fheGe b a
  { goldBalances := storeEncryptedValue s.goldBalances p (fheSelect c (fheSub b a) b)
    stakedBalances := storeEncryptedValue s.stakedBalances p (fheSelect c (fheAdd t a) t)
    lastActionStatus :=
      storeEncryptedValue s.lastActionStatus p
        (fheSelect c STATUS_OK STATUS_INSUFFICIENT_BALANCE)
    hasClaimed := s.hasClaimed }

/-- The storage after a `withdrawStakedGold` by `p` whose proof verifies. -/
def withdrawPost (p : Addr) (amount : Nat) (s : GhostState) : GhostState :=
  let a := amount % M32
  let t := resolveSlot s.stakedBalances p
  let b := resolveSlot s.goldBalances p
  let c := fheGe t a
  { goldBalances := storeEncryptedValue s.goldBalances p (fheSelect c (fheAdd b a) b)
    stakedBalances := storeEncryptedValue s.stakedBalances p (fheSelect c (fheSub t a) t)
    lastActionStatus :=
      storeEncryptedValue s.lastActionStatus p
        (fheSelect c STATUS_OK STATUS_INSUFFICIENT_STAKE)
    hasClaimed := s.hasClaimed }

theorem claimInitialGold_eq_of_not_claimed {p : Addr} {s : GhostState}
    (h : s.hasClaimed p = false) :
    claimInitialGold p s = .ok (claimPost p s, [Event.goldClaimed p]) := by
  simp [claimInitialGold, h, claimPost]

theorem claimInitialGold_eq_of_claimed {p : Addr} {s : GhostState}
    (h : s.hasClaimed p = true) :
    claimInitialGold p s = .error .alreadyClaimed := by
  simp [claimInitialGold, h]

theorem stakeGold_eq (p : Addr) (amount : Nat) (s : GhostState) :
    stakeGold p amount true s = .ok (stakePost p amount s, [Event.goldStaked p]) := by
  simp [stakeGold, stakePost]

theorem withdrawStakedGold_eq (p : Addr) (amount : Nat) (s : GhostState) :
    withdrawStakedGold p amount true s = .ok (withdrawPost p amount s, [Event.goldWithdrawn p]) := by
  simp [withdrawStakedGold, withdrawPost]

theorem exec_claim_of_claimed {p : Addr} {s : GhostState} (h : s.hasClaimed p = true) :
    exec p Op.claim s = (s, []) := by
  simp [exec, step, claimInitialGold_eq_of_claimed h]

theorem exec_claim_of_not_claimed {p : Addr} {s : GhostState} (h : s.hasClaimed p = false) :
    exec p Op.claim s = (claimPost p s, [Event.goldClaimed p]) := by
  simp [exec, step, claimInitialGold_eq_of_not_claimed h]

theorem exec_stake (p : Addr) (amount : Nat) (s : GhostState) :
    exec p (Op.stake amount true) s = (stakePost p amount s, [Event.goldStaked p]) := by
  simp [exec, step, stakeGold_eq]

theorem exec_stake_badProof (p : Addr) (amount : Nat) (s : GhostState) :
    exec p (Op.stake amount false) s = (s, []) := by
  simp [exec, step, stakeGold]

theorem exec_withdraw (p : Addr) (amount : Nat) (s : GhostState) :
    exec p (Op.withdraw amount true) s = (withdrawPost p amount s, [Event.goldWithdrawn p]) := by
  simp [exec, step, withdrawStakedGold_eq]

theorem exec_withdraw_badProof (p : Addr) (amount : Nat) (s : GhostState) :
    exec p (Op.withdraw amount false) s = (s, []) := by
  simp [exec, step, withdrawStakedGold]

/-! ## Basic lemmas on `upd`, `storeEncryptedValue`, `resolveSlot` -/

@[simp] theorem upd_same {α : Type} (f : Addr → α) (p : Addr) (v : α) :
    upd f p v p = v := by simp [upd]

theorem upd_other {α : Type} (f : Addr → α) (p : Addr) (v : α) {q : Addr}
    (h : q ≠ p) : upd f p v q = f q := by simp [upd, h]

@[simp] theorem store_vals_same (b : CipherSlot) (p : Addr) (v : Nat) :
    (storeEncryptedValue b p v).vals p = some v := by simp [storeEncryptedValue]

@[simp] theorem store_flags_same (b : CipherSlot) (p : Addr) (v : Nat) :
    (storeEncryptedValue b p v).flags p = true := by simp [storeEncryptedValue]

@[simp] theorem store_allowLedger_same (b : CipherSlot) (p : Addr) (v : Nat) :
    (storeEncryptedValue b p v).allowLedger p = true := by simp [storeEncryptedValue]

@[simp] theorem store_allowPlayer_same (b : CipherSlot) (p : Addr) (v : Nat) :
    (storeEncryptedValue b p v).allowPlayer p = true := by simp [storeEncryptedValue]

theorem store_vals_other (b : CipherSlot) (p : Addr) (v : Nat) {q : Addr} (h : q ≠ p) :
    (storeEncryptedValue b p v).vals q = b.vals q := by
  simp [storeEncryptedValue, upd_other _ _ _ h]

theorem store_flags_other (b : CipherSlot) (p : Addr) (v : Nat) {q : Addr} (h : q ≠ p) :
    (storeEncryptedValue b p v).flags q = b.flags q := by
  simp [storeEncryptedValue, upd_other _ _ _ h]

theorem store_allowLedger_other (b : CipherSlot) (p : Addr) (v : Nat) {q : Addr} (h : q ≠ p) :
    (storeEncryptedValue b p v).allowLedger q = b.allowLedger q := by
  simp [storeEncryptedValue, upd_other _ _ _ h]

theorem store_allowPlayer_other (b : CipherSlot) (p : Addr) (v : Nat) {q : Addr} (h : q ≠ p) :
    (storeEncryptedValue b p v).allowPlayer q = b.allowPlayer q := by
  simp [storeEncryptedValue, upd_other _ _ _ h]

@[simp] theorem resolve_store_same (b : CipherSlot) (p : Addr) (v : Nat) :
    resolveSlot (storeEncryptedValue b p v) p = v := by
  simp [resolveSlot, decryptOr0]

theorem resolve_store_other (b : CipherSlot) (p : Addr) (v : Nat) {q : Addr} (h : q ≠ p) :
    resolveSlot (storeEncryptedValue b p v) q = resolveSlot b q := by
  simp [resolveSlot, store_vals_other _ _ _ h, store_flags_other _ _ _ h]

/-! ## Arithmetic facts about the FHE primitives -/

theorem fheAdd_lt (x y : Nat) : fheAdd x y < M32 :=
  Nat.mod_lt _ (by norm_num [M32])

theorem fheSub_lt (x y : Nat) : fheSub x y < M32 :=
  Nat.mod_lt _ (by norm_num [M32])

theorem fheAdd_eq_of_lt {x y : Nat} (h : x + y < M32) : fheAdd x y = x + y :=
  Nat.mod_eq_of_lt h

theorem fheSub_eq_of_le {x y : Nat} (hx : x < M32) (hy : y ≤ x) :
    fheSub x y = x - y := by
  unfold fheSub
  rw [Nat.mod_eq_of_lt hx, Nat.mod_eq_of_lt (lt_of_le_of_lt hy hx)]
  have h1 : x + M32 - y = (x - y) + M32 := by omega
  rw [h1, Nat.add_mod_right]
  exact Nat.mod_eq_of_lt (by omega)

/-! ## The reachable-state invariant -/

/-- Per-slot invariant: the existence flag is unset exactly when the raw
mapping entry is still the all-zero default, every stored plaintext is a
32-bit value, and every stored ciphertext carries the dual decryption
grant. -/
def SlotInv (b : CipherSlot) : Prop :=
  ∀ p, (b.flags p = false ↔ b.vals p = none) ∧
    (b.flags p = true → b.allowLedger p = true ∧ b.allowPlayer p = true) ∧
    (∀ v, b.vals p = some v → v < M32)

/-- Global invariant of reachable storage: the three slot invariants plus
conservation — each player's decrypted `balance + stake` equals the total
amount ever granted to them (100 once claimed, 0 before). -/
def GoodState (s : GhostState) : Prop :=
  SlotInv s.goldBalances ∧ SlotInv s.stakedBalances ∧ SlotInv s.lastActionStatus ∧
  ∀ p, sumOf s p = (if s.hasClaimed p then INITIAL_GRANT else 0)

theorem slotInv_store {b : CipherSlot} (h : SlotInv b) {v : Nat} (hv : v < M32)
    (p : Addr) : SlotInv (storeEncryptedValue b p v) := by
  intro q
  by_cases hq : q = p
  · subst hq
    refine ⟨by simp, by simp, ?_⟩
    intro w hw
    simp at hw
    omega
  · rw [store_vals_other _ _ _ hq, store_flags_other _ _ _ hq,
      store_allowLedger_other _ _ _ hq, store_allowPlayer_other _ _ _ hq]
    exact h q

theorem resolveSlot_lt_of_slotInv {b : CipherSlot} (h : SlotInv b) (p : Addr) :
    resolveSlot b p < M32 := by
  unfold resolveSlot
  split
  · rcases hb : b.vals p with _ | v
    · simp [decryptOr0, M32]
    · simpa [decryptOr0] using (h p).2.2 v hb
  · simp [M32]

theorem INITIAL_GRANT_lt_M32 : INITIAL_GRANT < M32 := by
  norm_num [INITIAL_GRANT, M32]

theorem goodState_init : GoodState initState := by
  refine ⟨?_, ?_, ?_, ?_⟩ <;>
    simp [SlotInv, initState, sumOf, resolveSlot]

theorem sumOf_le_of_goodState {s : GhostState} (h : GoodState s) (p : Addr) :
    sumOf s p ≤ INITIAL_GRANT := by
  rcases h with ⟨-, -, -, hsum⟩
  rw [hsum p]
  split <;> simp

theorem goodState_claimPost {p : Addr} {s : GhostState} (h : GoodState s)
    (hp : s.hasClaimed p = false) : GoodState (claimPost p s) := by
  obtain ⟨hg, hs, ht, hsum⟩ := h
  have hb : resolveSlot s.goldBalances p < M32 := resolveSlot_lt_of_slotInv hg p
  refine ⟨slotInv_store hg (fheAdd_lt _ _) p, hs,
    slotInv_store ht (by norm_num [STATUS_OK, M32]) p, ?_⟩
  intro q
  by_cases hq : q = p
  · subst hq
    have h0 : sumOf s q = 0 := by rw [hsum q, hp]; simp
    have hg0 : resolveSlot s.goldBalances q = 0 := by
      unfold sumOf at h0; omega
    have hs0 : resolveSlot s.stakedBalances q = 0 := by
      unfold sumOf at h0; omega
    simp [sumOf, claimPost, resolve_store_same, hg0, hs0, upd_same]
    rw [fheAdd_eq_of_lt (by norm_num [INITIAL_GRANT, M32])]
    simp [INITIAL_GRANT]
  · have := hsum q
    simpa [sumOf, claimPost, resolve_store_other _ _ _ hq, upd_other _ _ _ hq]
      using this

theorem goodState_stakePost {p : Addr} (amount : Nat) {s : GhostState}
    (h : GoodState s) : GoodState (stakePost p amount s) := by
  obtain ⟨hg, hs, ht, hsum⟩ := h
  have hb : resolveSlot s.goldBalances p < M32 := resolveSlot_lt_of_slotInv hg p
  have hst : resolveSlot s.stakedBalances p < M32 := resolveSlot_lt_of_slotInv hs p
  have hle : sumOf s p ≤ INITIAL_GRANT := by
    rw [hsum p]; split <;> simp
  refine ⟨?_, ?_, ?_, ?_⟩
  · refine slotInv_store hg ?_ p
    unfold fheSelect
    split
    · exact fheSub_lt _ _
    · exact hb
  · refine slotInv_store hs ?_ p
    unfold fheSelect
    split
    · exact fheAdd_lt _ _
    · exact hst
  · refine slotInv_store ht ?_ p
    unfold fheSelect
    split <;> norm_num [STATUS_OK, STATUS_INSUFFICIENT_BALANCE, M32]
  · intro q
    by_cases hq : q = p
    · subst hq
      have hsq := hsum q
      simp only [sumOf, stakePost, resolve_store_same] at *
      rcases hc : fheGe (resolveSlot s.goldBalances q) (amount % M32) with _ | _
      · simpa [stakePost, fheSelect, hc] using hsq
      · have hle2 : amount % M32 ≤ resolveSlot s.goldBalances q := by
          simpa [fheGe] using hc
        have h1 := fheSub_eq_of_le hb hle2
        have h2 : fheAdd (resolveSlot s.stakedBalances q) (amount % M32) =
            resolveSlot s.stakedBalances q + amount % M32 :=
          fheAdd_eq_of_lt (by have h3 := INITIAL_GRANT_lt_M32; omega)
        simp only [fheSelect, eq_self_iff_true, if_true, h1, h2]
        rw [← hsq]
        omega
    · have := hsum q
      simpa [sumOf, stakePost, resolve_store_other _ _ _ hq] using this

theorem goodState_withdrawPost {p : Addr} (amount : Nat) {s : GhostState}
    (h : GoodState s) : GoodState (withdrawPost p amount s) := by
  obtain ⟨hg, hs, ht, hsum⟩ := h
  have hb : resolveSlot s.goldBalances p < M32 := resolveSlot_lt_of_slotInv hg p
  have hst : resolveSlot s.stakedBalances p < M32 := resolveSlot_lt_of_slotInv hs p
  have hle : sumOf s p ≤ INITIAL_GRANT := by
    rw [hsum p]; split <;> simp
  refine ⟨?_, ?_, ?_, ?_⟩
  · refine slotInv_store hg ?_ p
    unfold fheSelect
    split
    · exact fheAdd_lt _ _
    · exact hb
  · refine slotInv_store hs ?_ p
    unfold fheSelect
    split
    · exact fheSub_lt _ _
    · exact hst
  · refine slotInv_store ht ?_ p
    unfold fheSelect
    split <;> norm_num [STATUS_OK, STATUS_INSUFFICIENT_STAKE, M32]
  · intro q
    by_cases hq : q = p
    · subst hq
      have hsq := hsum q
      simp only [sumOf, withdrawPost, resolve_store_same] at *
      rcases hc : fheGe (resolveSlot s.stakedBalances q) (amount % M32) with _ | _
      · simpa [withdrawPost, fheSelect, hc] using hsq
      · have hle2 : amount % M32 ≤ resolveSlot s.stakedBalances q := by
          simpa [fheGe] using hc
        have h1 := fheSub_eq_of_le hst hle2
        have h2 : fheAdd (resolveSlot s.goldBalances q) (amount % M32) =
            resolveSlot s.goldBalances q + amount % M32 :=
          fheAdd_eq_of_lt (by have h3 := INITIAL_GRANT_lt_M32; omega)
        simp only [fheSelect, eq_self_iff_true, if_true, h1, h2]
        rw [← hsq]
        omega
    · have := hsum q
      simpa [sumOf, withdrawPost, resolve_store_other _ _ _ hq] using this

theorem goodState_exec (p : Addr) (o : Op) {s : GhostState} (h : GoodState s) :
    GoodState (exec p o s).1 := by
  cases o with
  | claim =>
    rcases hc : s.hasClaimed p with _ | _
    · rw [exec_claim_of_not_claimed hc]
      exact goodState_claimPost h hc
    · rw [exec_claim_of_claimed hc]
      exact h
  | stake a ok =>
    cases ok
    · rw [exec_stake_badProof]; exact h
    · rw [exec_stake]; exact goodState_stakePost a h
  | withdraw a ok =>
    cases ok
    · rw [exec_withdraw_badProof]; exact h
    · rw [exec_withdraw]; exact goodState_withdrawPost a h

theorem goodState_of_reachable {s : GhostState} (h : Reachable s) : GoodState s := by
  induction h with
  | init => exact goodState_init
  | next p o _ ih => exact goodState_exec p o ih

/-! ## Claim theorems -/

/-- `true` for the two proof-carrying operations, `false` for `claim`. -/
def isStakeOrWithdraw : Op → Bool
  | Op.claim => false
  | Op.stake _ _ => true
  | Op.withdraw _ _ => true

theorem hasClaimed_exec_sw {o : Op} (h : isStakeOrWithdraw o = true)
    (p : Addr) (s : GhostState) : (exec p o s).1.hasClaimed = s.hasClaimed := by
  cases o with
  | claim => simp [isStakeOrWithdraw] at h
  | stake a ok =>
    cases ok
    · rw [exec_stake_badProof]
    · rw [exec_stake]
      rfl
  | withdraw a ok =>
    cases ok
    · rw [exec_withdraw_badProof]
    · rw [exec_withdraw]
      rfl

theorem conservation_aux (p : Addr) (ops : List Op)
    (h : ∀ o ∈ ops, isStakeOrWithdraw o = true) {s : GhostState}
    (hs : GoodState s) :
    GoodState (runSeq p ops s) ∧ (runSeq p ops s).hasClaimed p = s.hasClaimed p := by
  induction ops generalizing s with
  | nil => simpa [runSeq]
  | cons o os ih =>
    have h1 : isStakeOrWithdraw o = true := h o (by simp)
    have h2 : ∀ o' ∈ os, isStakeOrWithdraw o' = true := fun o' ho' => h o' (by simp [ho'])
    have hg : GoodState (exec p o s).1 := goodState_exec p o hs
    have hrun : runSeq p (o :: os) s = runSeq p os (exec p o s).1 := by
      simp [runSeq]
    obtain ⟨ha, hb⟩ := ih h2 hg
    rw [hrun]
    refine ⟨ha, ?_⟩
    rw [hb, hasClaimed_exec_sw h1]

/-- C1.  Conservation: from any reachable storage, any sequence of
`stakeGold` / `withdrawStakedGold` calls by one identity leaves that
identity's decrypted `balance + stake` unchanged, and that sum always
equals the total of all historical grants to the identity (100 once it
has claimed, 0 before). -/
theorem stake_withdraw_conservation (p : Addr) {s : GhostState}
    (hs : Reachable s) (ops : List Op)
    (hops : ∀ o ∈ ops, isStakeOrWithdraw o = true) :
    sumOf (runSeq p ops s) p = sumOf s p ∧
    sumOf (runSeq p ops s) p =
      (if (runSeq p ops s).hasClaimed p then INITIAL_GRANT else 0) := by
  have hgs := goodState_of_reachable hs
  obtain ⟨hg', hcl⟩ := conservation_aux p ops hops hgs
  have e1 := hg'.2.2.2 p
  have e0 := hgs.2.2.2 p
  exact ⟨by rw [e1, e0, hcl], e1⟩

/-- Witness for C1 at the state after a grant, with a stake and a
withdrawal. -/
theorem stake_withdraw_conservation_witness :
    sumOf (runSeq 0 [Op.stake 40 true, Op.withdraw 15 true]
        (exec 0 Op.claim initState).1) 0 =
      sumOf (exec 0 Op.claim initState).1 0 ∧
    sumOf (runSeq 0 [Op.stake 40 true, Op.withdraw 15 true]
        (exec 0 Op.claim initState).1) 0 =
      (if (runSeq 0 [Op.stake 40 true, Op.withdraw 15 true]
          (exec 0 Op.claim initState).1).hasClaimed 0 then INITIAL_GRANT else 0) :=
  stake_withdraw_conservation 0 (Reachable.next 0 Op.claim Reachable.init)
    [Op.stake 40 true, Op.withdraw 15 true] (by decide)

/-- C2.  Stake semantics: a `stakeGold` call whose proof verifies either
moves exactly the requested amount from balance to stake with status 0
(when the current balance suffices) or commits the unchanged pre-call
values with status 1, absent slots resolving to zero; exactly one of the
two precomputed outcomes is committed. -/
theorem stakeGold_semantics (p : Addr) (a : Nat) (s : GhostState)
    (ha : a < M32)
    (hsum : resolveSlot s.goldBalances p + resolveSlot s.stakedBalances p < M32) :
    (a ≤ resolveSlot s.goldBalances p →
      getGoldBalance (exec p (Op.stake a true) s).1 p =
        some (resolveSlot s.goldBalances p - a) ∧
      getStakedBalance (exec p (Op.stake a true) s).1 p =
        some (resolveSlot s.stakedBalances p + a) ∧
      getLastActionStatus (exec p (Op.stake a true) s).1 p = some STATUS_OK) ∧
    (resolveSlot s.goldBalances p < a →
      getGoldBalance (exec p (Op.stake a true) s).1 p =
        some (resolveSlot s.goldBalances p) ∧
      getStakedBalance (exec p (Op.stake a true) s).1 p =
        some (resolveSlot s.stakedBalances p) ∧
      getLastActionStatus (exec p (Op.stake a true) s).1 p =
        some STATUS_INSUFFICIENT_BALANCE) := by
  have haa : a % M32 = a := Nat.mod_eq_of_lt ha
  rw [exec_stake]
  constructor
  · intro hge
    have hc : fheGe (resolveSlot s.goldBalances p) (a % M32) = true := by
      simp [fheGe, haa, hge]
    have h1 : fheSub (resolveSlot s.goldBalances p) (a % M32) =
        resolveSlot s.goldBalances p - a := by
      rw [haa]; exact fheSub_eq_of_le (by omega) hge
    have h2 : fheAdd (resolveSlot s.stakedBalances p) (a % M32) =
        resolveSlot s.stakedBalances p + a := by
      rw [haa]; exact fheAdd_eq_of_lt (by omega)
    simp [stakePost, getGoldBalance, getStakedBalance, getLastActionStatus,
      hc, fheSelect, h1, h2]
  · intro hlt
    have hc : fheGe (resolveSlot s.goldBalances p) (a % M32) = false := by
      simp [fheGe, haa]; omega
    simp [stakePost, getGoldBalance, getStakedBalance, getLastActionStatus,
      hc, fheSelect]

/-- Witness for C2: staking 40 then overdraw-staking 150 after a grant. -/
theorem stakeGold_semantics_witness :
    (40 ≤ resolveSlot (exec 0 Op.claim initState).1.goldBalances 0 →
      getGoldBalance (exec 0 (Op.stake 40 true) (exec 0 Op.claim initState).1).1 0 =
        some (resolveSlot (exec 0 Op.claim initState).1.goldBalances 0 - 40) ∧
      getStakedBalance (exec 0 (Op.stake 40 true) (exec 0 Op.claim initState).1).1 0 =
        some (resolveSlot (exec 0 Op.claim initState).1.stakedBalances 0 + 40) ∧
      getLastActionStatus (exec 0 (Op.stake 40 true) (exec 0 Op.claim initState).1).1 0 =
        some STATUS_OK) ∧
    (resolveSlot (exec 0 Op.claim initState).1.goldBalances 0 < 40 →
      getGoldBalance (exec 0 (Op.stake 40 true) (exec 0 Op.claim initState).1).1 0 =
        some (resolveSlot (exec 0 Op.claim initState).1.goldBalances 0) ∧
      getStakedBalance (exec 0 (Op.stake 40 true) (exec 0 Op.claim initState).1).1 0 =
        some (resolveSlot (exec 0 Op.claim initState).1.stakedBalances 0) ∧
      getLastActionStatus (exec 0 (Op.stake 40 true) (exec 0 Op.claim initState).1).1 0 =
        some STATUS_INSUFFICIENT_BALANCE) :=
  stakeGold_semantics 0 40 (exec 0 Op.claim initState).1 (by decide) (by decide)

/-- C3.  Withdraw semantics: a `withdrawStakedGold` call whose proof
verifies either moves exactly the requested amount from stake back to
balance with status 0 (when the current stake suffices) or commits the
unchanged pre-call values with status 2; the `GoldWithdrawn` notification
is emitted exactly once per call, regardless of sufficiency. -/
theorem withdrawStakedGold_semantics (p : Addr) (a : Nat) (s : GhostState)
    (ha : a < M32)
    (hsum : resolveSlot s.goldBalances p + resolveSlot s.stakedBalances p < M32) :
    (a ≤ resolveSlot s.stakedBalances p →
      getStakedBalance (exec p (Op.withdraw a true) s).1 p =
        some (resolveSlot s.stakedBalances p - a) ∧
      getGoldBalance (exec p (Op.withdraw a true) s).1 p =
        some (resolveSlot s.goldBalances p + a) ∧
      getLastActionStatus (exec p (Op.withdraw a true) s).1 p = some STATUS_OK) ∧
    (resolveSlot s.stakedBalances p < a →
      getStakedBalance (exec p (Op.withdraw a true) s).1 p =
        some (resolveSlot s.stakedBalances p) ∧
      getGoldBalance (exec p (Op.withdraw a true) s).1 p =
        some (resolveSlot s.goldBalances p) ∧
      getLastActionStatus (exec p (Op.withdraw a true) s).1 p =
        some STATUS_INSUFFICIENT_STAKE) ∧
    (exec p (Op.withdraw a true) s).2 = [Event.goldWithdrawn p] := by
  have haa : a % M32 = a := Nat.mod_eq_of_lt ha
  rw [exec_withdraw]
  refine ⟨?_, ?_, rfl⟩
  · intro hge
    have hc : fheGe (resolveSlot s.stakedBalances p) (a % M32) = true := by
      simp [fheGe, haa, hge]
    have h1 : fheSub (resolveSlot s.stakedBalances p) (a % M32) =
        resolveSlot s.stakedBalances p - a := by
      rw [haa]; exact fheSub_eq_of_le (by omega) hge
    have h2 : fheAdd (resolveSlot s.goldBalances p) (a % M32) =
        resolveSlot s.goldBalances p + a := by
      rw [haa]; exact fheAdd_eq_of_lt (by omega)
    simp [withdrawPost, getGoldBalance, getStakedBalance, getLastActionStatus,
      hc, fheSelect, h1, h2]
  · intro hlt
    have hc : fheGe (resolveSlot s.stakedBalances p) (a % M32) = false := by
      simp [fheGe, haa]; omega
    simp [withdrawPost, getGoldBalance, getStakedBalance, getLastActionStatus,
      hc, fheSelect]

/-- Witness for C3 after a grant and a stake of 40. -/
theorem withdrawStakedGold_semantics_witness :
    (15 ≤ resolveSlot
        (exec 0 (Op.stake 40 true) (exec 0 Op.claim initState).1).1.stakedBalances 0 →
      getStakedBalance (exec 0 (Op.withdraw 15 true)
          (exec 0 (Op.stake 40 true) (exec 0 Op.claim initState).1).1).1 0 =
        some (resolveSlot
          (exec 0 (Op.stake 40 true) (exec 0 Op.claim initState).1).1.stakedBalances 0 - 15) ∧
      getGoldBalance (exec 0 (Op.withdraw 15 true)
          (exec 0 (Op.stake 40 true) (exec 0 Op.claim initState).1).1).1 0 =
        some (resolveSlot
          (exec 0 (Op.stake 40 true) (exec 0 Op.claim initState).1).1.goldBalances 0 + 15) ∧
      getLastActionStatus (exec 0 (Op.withdraw 15 true)
          (exec 0 (Op.stake 40 true) (exec 0 Op.claim initState).1).1).1 0 =
        some STATUS_OK) ∧
    (resolveSlot
        (exec 0 (Op.stake 40 true) (exec 0 Op.claim initState).1).1.stakedBalances 0 < 15 →
      getStakedBalance (exec 0 (Op.withdraw 15 true)
          (exec 0 (Op.stake 40 true) (exec 0 Op.claim initState).1).1).1 0 =
        some (resolveSlot
          (exec 0 (Op.stake 40 true) (exec 0 Op.claim initState).1).1.stakedBalances 0) ∧
      getGoldBalance (exec 0 (Op.withdraw 15 true)
          (exec 0 (Op.stake 40 true) (exec 0 Op.claim initState).1).1).1 0 =
        some (resolveSlot
          (exec 0 (Op.stake 40 true) (exec 0 Op.claim initState).1).1.goldBalances 0) ∧
      getLastActionStatus (exec 0 (Op.withdraw 15 true)
          (exec 0 (Op.stake 40 true) (exec 0 Op.claim initState).1).1).1 0 =
        some STATUS_INSUFFICIENT_STAKE) ∧
    (exec 0 (Op.withdraw 15 true)
        (exec 0 (Op.stake 40 true) (exec 0 Op.claim initState).1).1).2 =
      [Event.goldWithdrawn 0] :=
  withdrawStakedGold_semantics 0 15
    (exec 0 (Op.stake 40 true) (exec 0 Op.claim initState).1).1 (by decide) (by decide)

/-- C4.  One-time claim with abort atomicity: `claimInitialGold` aborts
with `AlreadyClaimed` exactly when the caller has already claimed, and
the abort emits no notification and leaves the entire storage — every
slot of every identity — unchanged. -/
theorem claim_second_abort (p : Addr) (s : GhostState) :
    (step p Op.claim s = .error GErr.alreadyClaimed ↔ s.hasClaimed p = true) ∧
    (s.hasClaimed p = true → exec p Op.claim s = (s, [])) := by
  constructor
  · rcases hc : s.hasClaimed p with _ | _
    · simp only [step, claimInitialGold_eq_of_not_claimed hc]
      simp
    · simp [step, claimInitialGold_eq_of_claimed hc]
  · intro hc
    exact exec_claim_of_claimed hc

/-- Witness for C4: second `claimInitialGold` by the same identity. -/
theorem claim_second_abort_witness :
    step 0 Op.claim (exec 0 Op.claim initState).1 = .error GErr.alreadyClaimed ∧
    exec 0 Op.claim (exec 0 Op.claim initState).1 =
      ((exec 0 Op.claim initState).1, []) :=
  ⟨(claim_second_abort 0 (exec 0 Op.claim initState).1).1.mpr (by decide),
   (claim_second_abort 0 (exec 0 Op.claim initState).1).2 (by decide)⟩

/-- C5.  Grant effect on a fresh identity: one `claimInitialGold` leaves
the stored balance decrypting to 100, the stake resolving to zero, the
status decrypting to 0, and the claim flag set. -/
theorem claim_fresh_effect (p : Addr) (s : GhostState)
    (h1 : s.hasClaimed p = false)
    (h2 : s.goldBalances.flags p = false)
    (h3 : s.stakedBalances.flags p = false) :
    getGoldBalance (exec p Op.claim s).1 p = some INITIAL_GRANT ∧
    resolveSlot (exec p Op.claim s).1.stakedBalances p = 0 ∧
    getLastActionStatus (exec p Op.claim s).1 p = some STATUS_OK ∧
    (exec p Op.claim s).1.hasClaimed p = true := by
  rw [exec_claim_of_not_claimed h1]
  have hg0 : resolveSlot s.goldBalances p = 0 := by simp [resolveSlot, h2]
  have hs0 : resolveSlot s.stakedBalances p = 0 := by simp [resolveSlot, h3]
  refine ⟨?_, ?_, ?_, ?_⟩
  · simp [claimPost, getGoldBalance, hg0]
    norm_num [fheAdd, INITIAL_GRANT, M32]
  · simpa [claimPost] using hs0
  · simp [claimPost, getLastActionStatus]
  · simp [claimPost]

/-- Witness for C5 on a fresh deployment. -/
theorem claim_fresh_effect_witness :
    getGoldBalance (exec 0 Op.claim initState).1 0 = some INITIAL_GRANT ∧
    resolveSlot (exec 0 Op.claim initState).1.stakedBalances 0 = 0 ∧
    getLastActionStatus (exec 0 Op.claim initState).1 0 = some STATUS_OK ∧
    (exec 0 Op.claim initState).1.hasClaimed 0 = true :=
  claim_fresh_effect 0 initState (by decide) (by decide) (by decide)

/-- C6.  Absent-account reads: on every reachable storage, each of the
three getters returns the absent sentinel (the all-zero mapping default)
exactly when the corresponding existence flag is unset, and that sentinel
is distinct from every stored ciphertext, a stored confidential zero
included. -/
theorem absent_reads_iff {s : GhostState} (hs : Reachable s) (p : Addr) :
    (getGoldBalance s p = absentSentinel ↔ s.goldBalances.flags p = false) ∧
    (getStakedBalance s p = absentSentinel ↔ s.stakedBalances.flags p = false) ∧
    (getLastActionStatus s p = absentSentinel ↔ s.lastActionStatus.flags p = false) ∧
    (∀ v : Nat, (some v : Option Nat) ≠ absentSentinel) := by
  obtain ⟨hg, hst, hls, -⟩ := goodState_of_reachable hs
  refine ⟨?_, ?_, ?_, by simp [absentSentinel]⟩
  · simpa [getGoldBalance, absentSentinel] using Iff.symm (hg p).1
  · simpa [getStakedBalance, absentSentinel] using Iff.symm (hst p).1
  · simpa [getLastActionStatus, absentSentinel] using Iff.symm (hls p).1

/-- Witness for C6 at the state after one grant by identity 0, read for
identities 0 and implicitly the untouched slots. -/
theorem absent_reads_iff_witness :
    (getGoldBalance (exec 0 Op.claim initState).1 0 = absentSentinel ↔
      (exec 0 Op.claim initState).1.goldBalances.flags 0 = false) ∧
    (getStakedBalance (exec 0 Op.claim initState).1 0 = absentSentinel ↔
      (exec 0 Op.claim initState).1.stakedBalances.flags 0 = false) ∧
    (getLastActionStatus (exec 0 Op.claim initState).1 0 = absentSentinel ↔
      (exec 0 Op.claim initState).1.lastActionStatus.flags 0 = false) ∧
    (∀ v : Nat, (some v : Option Nat) ≠ absentSentinel) :=
  absent_reads_iff (Reachable.next 0 Op.claim Reachable.init) 0

/-- A slot write of `b'` relative to `b` at identity `q` carries the full
bookkeeping: if the entry or its flag changed, the post-state has the
flag set and both decryption grants in place. -/
def writtenWithGrant (b b' : CipherSlot) (q : Addr) : Prop :=
  (b'.vals q ≠ b.vals q ∨ b'.flags q ≠ b.flags q) →
    b'.flags q = true ∧ b'.allowLedger q = true ∧ b'.allowPlayer q = true

/-- Every ciphertext recorded as present carries both decryption
grants. -/
def grantedSlot (b : CipherSlot) (q : Addr) : Prop :=
  b.flags q = true → b.allowLedger q = true ∧ b.allowPlayer q = true

theorem writtenWithGrant_refl (b : CipherSlot) (q : Addr) :
    writtenWithGrant b b q := by
  intro h
  rcases h with h | h <;> exact absurd rfl h

theorem writtenWithGrant_store (b : CipherSlot) (p : Addr) (v : Nat) (q : Addr) :
    writtenWithGrant b (storeEncryptedValue b p v) q := by
  intro h
  by_cases hq : q = p
  · subst hq
    simp
  · rw [store_vals_other _ _ _ hq, store_flags_other _ _ _ hq] at h
    rcases h with h | h <;> exact absurd rfl h

/-- C7.  Dual-grant bookkeeping: in every operation, any write to a
balance, stake or status slot also sets the corresponding existence flag
and grants decryption capability to both the ledger and the identity; on
reachable storage no confidential value is ever left without this dual
grant. -/
theorem dual_grant_writes (p : Addr) (o : Op) {s : GhostState}
    (hs : Reachable s) (q : Addr) :
    writtenWithGrant s.goldBalances (exec p o s).1.goldBalances q ∧
    writtenWithGrant s.stakedBalances (exec p o s).1.stakedBalances q ∧
    writtenWithGrant s.lastActionStatus (exec p o s).1.lastActionStatus q ∧
    grantedSlot (exec p o s).1.goldBalances q ∧
    grantedSlot (exec p o s).1.stakedBalances q ∧
    grantedSlot (exec p o s).1.lastActionStatus q := by
  obtain ⟨hg, hst, hls, -⟩ := goodState_exec p o (goodState_of_reachable hs)
  refine ⟨?_, ?_, ?_, fun hf => (hg q).2.1 hf, fun hf => (hst q).2.1 hf,
    fun hf => (hls q).2.1 hf⟩ <;>
  · cases o with
    | claim =>
      rcases hc : s.hasClaimed p with _ | _
      · rw [exec_claim_of_not_claimed hc]
        first
          | exact writtenWithGrant_store _ _ _ _
          | exact writtenWithGrant_refl _ _
      · rw [exec_claim_of_claimed hc]
        exact writtenWithGrant_refl _ _
    | stake a ok =>
      cases ok
      · rw [exec_stake_badProof]
        exact writtenWithGrant_refl _ _
      · rw [exec_stake]
        exact writtenWithGrant_store _ _ _ _
    | withdraw a ok =>
      cases ok
      · rw [exec_withdraw_badProof]
        exact writtenWithGrant_refl _ _
      · rw [exec_withdraw]
        exact writtenWithGrant_store _ _ _ _

/-- Witness for C7: a stake call on the post-grant state. -/
theorem dual_grant_writes_witness :
    writtenWithGrant (exec 0 Op.claim initState).1.goldBalances
      (exec 0 (Op.stake 40 true) (exec 0 Op.claim initState).1).1.goldBalances 0 ∧
    writtenWithGrant (exec 0 Op.claim initState).1.stakedBalances
      (exec 0 (Op.stake 40 true) (exec 0 Op.claim initState).1).1.stakedBalances 0 ∧
    writtenWithGrant (exec 0 Op.claim initState).1.lastActionStatus
      (exec 0 (Op.stake 40 true) (exec 0 Op.claim initState).1).1.lastActionStatus 0 ∧
    grantedSlot (exec 0 (Op.stake 40 true) (exec 0 Op.claim initState).1).1.goldBalances 0 ∧
    grantedSlot (exec 0 (Op.stake 40 true) (exec 0 Op.claim initState).1).1.stakedBalances 0 ∧
    grantedSlot (exec 0 (Op.stake 40 true) (exec 0 Op.claim initState).1).1.lastActionStatus 0 :=
  dual_grant_writes 0 (Op.stake 40 true)
    (Reachable.next 0 Op.claim Reachable.init) 0

/-- C8.  Claimed-flag monotonicity: no call ever resets a claim flag, and
the flag of an identity changes only when that identity itself performs
the grant call, flipping it from false to true. -/
theorem claimed_monotone (p q : Addr) (o : Op) (s : GhostState) :
    (s.hasClaimed p = true → (exec q o s).1.hasClaimed p = true) ∧
    ((exec q o s).1.hasClaimed p ≠ s.hasClaimed p →
      o = Op.claim ∧ q = p ∧ s.hasClaimed p = false ∧
      (exec q o s).1.hasClaimed p = true) := by
  cases o with
  | claim =>
    rcases hc : s.hasClaimed q with _ | _
    · rw [exec_claim_of_not_claimed hc]
      by_cases hpq : p = q
      · subst hpq
        constructor
        · intro h
          rw [h] at hc
          cases hc
        · intro _
          refine ⟨rfl, rfl, hc, ?_⟩
          simp [claimPost]
      · have hne : p ≠ q := hpq
        have : (claimPost q s).hasClaimed p = s.hasClaimed p := by
          simp [claimPost, upd_other _ _ _ hne]
        constructor
        · intro h
          rw [this, h]
        · intro h
          exact absurd this h
    · rw [exec_claim_of_claimed hc]
      exact ⟨fun h => h, fun h => absurd rfl h⟩
  | stake a ok =>
    have : (exec q (Op.stake a ok) s).1.hasClaimed = s.hasClaimed :=
      hasClaimed_exec_sw (by simp [isStakeOrWithdraw]) q s
    rw [this]
    exact ⟨fun h => h, fun h => absurd rfl h⟩
  | withdraw a ok =>
    have : (exec q (Op.withdraw a ok) s).1.hasClaimed = s.hasClaimed :=
      hasClaimed_exec_sw (by simp [isStakeOrWithdraw]) q s
    rw [this]
    exact ⟨fun h => h, fun h => absurd rfl h⟩

/-- Witness for C8: the grant call itself, on a fresh deployment. -/
theorem claimed_monotone_witness :
    (initState.hasClaimed 0 = true →
      (exec 0 Op.claim initState).1.hasClaimed 0 = true) ∧
    ((exec 0 Op.claim initState).1.hasClaimed 0 ≠ initState.hasClaimed 0 →
      Op.claim = Op.claim ∧ (0 : Addr) = 0 ∧ initState.hasClaimed 0 = false ∧
      (exec 0 Op.claim initState).1.hasClaimed 0 = true) :=
  claimed_monotone 0 0 Op.claim initState

/-- C9.  Every proof-passing `stakeGold` or `withdrawStakedGold` call
writes all three confidential slots of the caller and sets all three
existence flags, even on the insufficiency branch; for a previously
untouched identity the getters afterwards return stored ciphertexts
rather than the absent sentinel, with balance and stake decrypting to
their pre-call resolved value, zero. -/
theorem stake_withdraw_write_all_slots (p : Addr) (a : Nat) (o : Op)
    (s : GhostState) (ho : o = Op.stake a true ∨ o = Op.withdraw a true) :
    (exec p o s).1.goldBalances.flags p = true ∧
    (exec p o s).1.stakedBalances.flags p = true ∧
    (exec p o s).1.lastActionStatus.flags p = true ∧
    (∃ v, getGoldBalance (exec p o s).1 p = some v) ∧
    (∃ v, getStakedBalance (exec p o s).1 p = some v) ∧
    (∃ v, getLastActionStatus (exec p o s).1 p = some v) ∧
    (s.goldBalances.flags p = false → s.stakedBalances.flags p = false →
      getGoldBalance (exec p o s).1 p = some 0 ∧
      getStakedBalance (exec p o s).1 p = some 0) := by
  have hz : ∀ b : CipherSlot, b.flags p = false → resolveSlot b p = 0 := by
    intro b hb
    simp [resolveSlot, hb]
  rcases ho with ho | ho <;> subst ho
  · rw [exec_stake]
    refine ⟨by simp [stakePost], by simp [stakePost], by simp [stakePost],
      by simp [stakePost, getGoldBalance],
      by simp [stakePost, getStakedBalance],
      by simp [stakePost, getLastActionStatus], ?_⟩
    intro hgf hsf
    have hg0 := hz _ hgf
    have hs0 := hz _ hsf
    simp only [stakePost, getGoldBalance, getStakedBalance, hg0, hs0,
      store_vals_same]
    rcases hc : fheGe 0 (a % M32) with _ | _
    · simp [fheSelect, hc]
    · have ha0 : a % M32 = 0 := by simpa [fheGe] using hc
      simp [fheSelect, hc, ha0]
      norm_num [fheSub, fheAdd, M32]
  · rw [exec_withdraw]
    refine ⟨by simp [withdrawPost], by simp [withdrawPost], by simp [withdrawPost],
      by simp [withdrawPost, getGoldBalance],
      by simp [withdrawPost, getStakedBalance],
      by simp [withdrawPost, getLastActionStatus], ?_⟩
    intro hgf hsf
    have hg0 := hz _ hgf
    have hs0 := hz _ hsf
    simp only [withdrawPost, getGoldBalance, getStakedBalance, hg0, hs0,
      store_vals_same]
    rcases hc : fheGe 0 (a % M32) with _ | _
    · simp [fheSelect, hc]
    · have ha0 : a % M32 = 0 := by simpa [fheGe] using hc
      simp [fheSelect, hc, ha0]
      norm_num [fheSub, fheAdd, M32]

/-- Witness for C9: an insufficiency stake by an untouched identity. -/
theorem stake_withdraw_write_all_slots_witness :
    (exec 7 (Op.stake 5 true) initState).1.goldBalances.flags 7 = true ∧
    (exec 7 (Op.stake 5 true) initState).1.stakedBalances.flags 7 = true ∧
    (exec 7 (Op.stake 5 true) initState).1.lastActionStatus.flags 7 = true ∧
    (∃ v, getGoldBalance (exec 7 (Op.stake 5 true) initState).1 7 = some v) ∧
    (∃ v, getStakedBalance (exec 7 (Op.stake 5 true) initState).1 7 = some v) ∧
    (∃ v, getLastActionStatus (exec 7 (Op.stake 5 true) initState).1 7 = some v) ∧
    (initState.goldBalances.flags 7 = false →
      initState.stakedBalances.flags 7 = false →
      getGoldBalance (exec 7 (Op.stake 5 true) initState).1 7 = some 0 ∧
      getStakedBalance (exec 7 (Op.stake 5 true) initState).1 7 = some 0) :=
  stake_withdraw_write_all_slots 7 5 (Op.stake 5 true) initState (Or.inl rfl)

/-- C10.  Frame property: a call by `x` leaves every per-account entry of
any other identity `y` unchanged — the three ciphertext slots, the claim
flag and the three existence flags — and the grant operation additionally
never touches the caller's own stake slot or stake existence flag. -/
theorem frame_other_identities (x y : Addr) (o : Op) (s : GhostState)
    (hxy : y ≠ x) :
    (exec x o s).1.goldBalances.vals y = s.goldBalances.vals y ∧
    (exec x o s).1.stakedBalances.vals y = s.stakedBalances.vals y ∧
    (exec x o s).1.lastActionStatus.vals y = s.lastActionStatus.vals y ∧
    (exec x o s).1.hasClaimed y = s.hasClaimed y ∧
    (exec x o s).1.goldBalances.flags y = s.goldBalances.flags y ∧
    (exec x o s).1.stakedBalances.flags y = s.stakedBalances.flags y ∧
    (exec x o s).1.lastActionStatus.flags y = s.lastActionStatus.flags y ∧
    (o = Op.claim →
      (exec x o s).1.stakedBalances.vals x = s.stakedBalances.vals x ∧
      (exec x o s).1.stakedBalances.flags x = s.stakedBalances.flags x) := by
  cases o with
  | claim =>
    rcases hc : s.hasClaimed x with _ | _
    · rw [exec_claim_of_not_claimed hc]
      exact ⟨store_vals_other _ _ _ hxy, rfl,
        store_vals_other _ _ _ hxy, upd_other _ _ _ hxy,
        store_flags_other _ _ _ hxy, rfl,
        store_flags_other _ _ _ hxy, fun _ => ⟨rfl, rfl⟩⟩
    · rw [exec_claim_of_claimed hc]
      exact ⟨rfl, rfl, rfl, rfl, rfl, rfl, rfl, fun _ => ⟨rfl, rfl⟩⟩
  | stake a ok =>
    cases ok
    · rw [exec_stake_badProof]
      exact ⟨rfl, rfl, rfl, rfl, rfl, rfl, rfl, fun h => by cases h⟩
    · rw [exec_stake]
      exact ⟨store_vals_other _ _ _ hxy, store_vals_other _ _ _ hxy,
        store_vals_other _ _ _ hxy, rfl,
        store_flags_other _ _ _ hxy, store_flags_other _ _ _ hxy,
        store_flags_other _ _ _ hxy, fun h => by cases h⟩
  | withdraw a ok =>
    cases ok
    · rw [exec_withdraw_badProof]
      exact ⟨rfl, rfl, rfl, rfl, rfl, rfl, rfl, fun h => by cases h⟩
    · rw [exec_withdraw]
      exact ⟨store_vals_other _ _ _ hxy, store_vals_other _ _ _ hxy,
        store_vals_other _ _ _ hxy, rfl,
        store_flags_other _ _ _ hxy, store_flags_other _ _ _ hxy,
        store_flags_other _ _ _ hxy, fun h => by cases h⟩

/-- Witness for C10: identity 1 observes a claim call by identity 0. -/
theorem frame_other_identities_witness :
    (exec 0 Op.claim initState).1.goldBalances.vals 1 =
      initState.goldBalances.vals 1 ∧
    (exec 0 Op.claim initState).1.stakedBalances.vals 1 =
      initState.stakedBalances.vals 1 ∧
    (exec 0 Op.claim initState).1.lastActionStatus.vals 1 =
      initState.lastActionStatus.vals 1 ∧
    (exec 0 Op.claim initState).1.hasClaimed 1 = initState.hasClaimed 1 ∧
    (exec 0 Op.claim initState).1.goldBalances.flags 1 =
      initState.goldBalances.flags 1 ∧
    (exec 0 Op.claim initState).1.stakedBalances.flags 1 =
      initState.stakedBalances.flags 1 ∧
    (exec 0 Op.claim initState).1.lastActionStatus.flags 1 =
      initState.lastActionStatus.flags 1 ∧
    (Op.claim = Op.claim →
      (exec 0 Op.claim initState).1.stakedBalances.vals 0 =
        initState.stakedBalances.vals 0 ∧
      (exec 0 Op.claim initState).1.stakedBalances.flags 0 =
        initState.stakedBalances.flags 0) :=
  frame_other_identities 0 1 Op.claim initState (by decide)
